import Mathlib

/-! # QuokkaDispatcher native audio bridge: the QDAV packet encoder

A shallow embedding of `native-audio-bridge/cpp-forwarder`:

* `include/audio_packet.hpp`: the enumerations `AudioSource` and `AudioCodec`;
* `src/audio_packet.cpp`: `WriteU16LE`, `WriteU32LE`, `WriteU64LE`, `BuildPacket`;
* `src/main.cpp`: the example packet built in `main`.

A `std::vector<std::uint8_t>` is a `List Nat`; `push_back` appends one element at
the end.  Unsigned machine integers are natural numbers, and every
`static_cast` to a narrower unsigned type is an explicit reduction modulo `2 ^ w`.
-/

namespace qd

/-! ## Data model (`audio_packet.hpp`) -/

/-- The enumeration `enum class AudioSource : std::uint8_t`. -/
inductive AudioSource where
  | Radio
  | Emergency000
  deriving DecidableEq, Repr

/-- The enumeration `enum class AudioCodec : std::uint8_t`. -/
inductive AudioCodec where
  | Opus
  | Pcm16Le
  deriving DecidableEq, Repr

/-- The enumerator values of `AudioSource`, i.e. `static_cast<std::uint8_t>(source)`. -/
def AudioSource.toU8 : AudioSource → Nat
  | .Radio => 1
  | .Emergency000 => 2

/-- The enumerator values of `AudioCodec`, i.e. `static_cast<std::uint8_t>(codec)`. -/
def AudioCodec.toU8 : AudioCodec → Nat
  | .Opus => 1
  | .Pcm16Le => 2

/-! ## Integer conversions -/

/-- The conversion `static_cast<std::uint8_t>(x)`. -/
def castU8 (x : Nat) : Nat := x % 2 ^ 8

/-- The conversion `static_cast<std::uint16_t>(x)`. -/
def castU16 (x : Nat) : Nat := x % 2 ^ 16

/-! ## Little-endian writers (`audio_packet.cpp`, anonymous namespace) -/

/-- The helper `WriteU16LE(out, value)`: two `push_back` calls. -/
def WriteU16LE (out : List Nat) (value : Nat) : List Nat :=
  let out := out ++ [castU8 (value &&& 0xFF)]
  let out := out ++ [castU8 ((value >>> 8) &&& 0xFF)]
  out

/-- The helper `WriteU32LE(out, value)`: four `push_back` calls. -/
def WriteU32LE (out : List Nat) (value : Nat) : List Nat :=
  let out := out ++ [castU8 (value &&& 0xFF)]
  let out := out ++ [castU8 ((value >>> 8) &&& 0xFF)]
  let out := out ++ [castU8 ((value >>> 16) &&& 0xFF)]
  let out := out ++ [castU8 ((value >>> 24) &&& 0xFF)]
  out

/-- The helper `WriteU64LE(out, value)`: the loop `for (int i = 0; i < 8; ++i)`,
one `push_back` per iteration. -/
def WriteU64LE (out : List Nat) (value : Nat) : List Nat :=
  (List.range 8).foldl (fun out i => out ++ [castU8 ((value >>> (8 * i)) &&& 0xFF)]) out

/-! ## The encoder (`audio_packet.cpp`) -/

/-- The local `cappedSize = std::min<std::size_t>(payload.size(), 0xFFFF)`. -/
def cappedSize (payload : List Nat) : Nat := min payload.length 0xFFFF

/-- The function `BuildPacket`.  The initializer list `{'Q', 'D', 'A', 'V'}` is the
four character codes; the final range insert copies
`[payload.begin(), payload.begin() + cappedSize)`. -/
def BuildPacket (source : AudioSource) (codec : AudioCodec) (channels sampleRate
    sequence timestampMs : Nat) (payload : List Nat) : List Nat :=
  let cappedSize := cappedSize payload
  let out : List Nat := []
  let out := out ++ ['Q'.toNat, 'D'.toNat, 'A'.toNat, 'V'.toNat]
  let out := out ++ [1]
  let out := out ++ [source.toU8]
  let out := out ++ [codec.toU8]
  let out := out ++ [channels]
  let out := WriteU16LE out sampleRate
  let out := WriteU16LE out (castU16 cappedSize)
  let out := WriteU32LE out sequence
  let out := WriteU64LE out timestampMs
  let out := out ++ payload.take cappedSize
  out

/-- The range insert `out.insert(out.end(), v.begin(), v.begin() + n)` with its
precondition made explicit: the iterator `v.begin() + n` has to lie inside `v`,
and `n`, converted to `std::ptrdiff_t`, has to stay non-negative. -/
def insertPrefix (out v : List Nat) (n : Nat) : Option (List Nat) :=
  if n ≤ v.length ∧ n < 2 ^ 63 then some (out ++ v.take n) else none

/-- The function `BuildPacket` again, with the one operation of its body that has
a precondition (the final range insert) checked: `none` stands for a copy that
would leave the bounds of `payload`. -/
def BuildPacketChecked (source : AudioSource) (codec : AudioCodec) (channels sampleRate
    sequence timestampMs : Nat) (payload : List Nat) : Option (List Nat) :=
  let cappedSize := cappedSize payload
  let out : List Nat := []
  let out := out ++ ['Q'.toNat, 'D'.toNat, 'A'.toNat, 'V'.toNat]
  let out := out ++ [1]
  let out := out ++ [source.toU8]
  let out := out ++ [codec.toU8]
  let out := out ++ [channels]
  let out := WriteU16LE out sampleRate
  let out := WriteU16LE out (castU16 cappedSize)
  let out := WriteU32LE out sequence
  let out := WriteU64LE out timestampMs
  insertPrefix out payload cappedSize

/-- The payload built in `main`: `std::vector<std::uint8_t> fakePcmPayload(1920, 0)`. -/
def fakePcmPayload : List Nat := List.replicate 1920 0

/-- The call in `main`, with the clock reading `NowMs()` as a parameter. -/
def mainPacket (nowMs : Nat) : List Nat :=
  BuildPacket .Radio .Pcm16Le 1 48000 1 nowMs fakePcmPayload

/-! ## Reading the wire format -/

/-- The little-endian value of a byte list: `b₀ + 256 * b₁ + 256² * b₂ + …`. -/
def readLE : List Nat → Nat
  | [] => 0
  | b :: bs => b + 256 * readLE bs

/-- The `n` bytes of `bytes` that start at offset `off`. -/
def slice (bytes : List Nat) (off n : Nat) : List Nat := (bytes.drop off).take n

/-- The `payloadLen` field a packet declares: offsets 10-11, little-endian. -/
def declaredPayloadLen (packet : List Nat) : Nat := readLE (slice packet 10 2)

/-- The body of a packet: everything after the 24-byte header. -/
def body (packet : List Nat) : List Nat := packet.drop 24

/-- The byte `(v / 256 ^ i) mod 256` of a little-endian encoding. -/
def leByte (v i : Nat) : Nat := v / 256 ^ i % 256

/-- The `n` little-endian bytes of `v`, least significant first. -/
def leBytes (v n : Nat) : List Nat := (List.range n).map (leByte v)

/-! ## The decoder of the specification

The source implements only the encoder.  The decoder below follows section 4.1
of the specification, check by check, and serves to state the round trip. -/

/-- Modelled from the spec: the error taxonomy of `Decode` (section 7); the
source has no decoder. -/
inductive FormatError where
  | TooShort
  | BadMagic
  | UnsupportedVersion
  | UnknownSource
  | UnknownCodec
  | TruncatedPayload
  deriving DecidableEq, Repr

/-- Modelled from the spec: a `Packet` (section 3), the header fields plus a
payload; `magic` and `version` are constants of the format and are not stored. -/
structure Packet where
  source : AudioSource
  codec : AudioCodec
  channels : Nat
  sampleRate : Nat
  payloadLen : Nat
  sequence : Nat
  timestampMs : Nat
  payload : List Nat
  deriving DecidableEq, Repr

/-- Modelled from the spec: the closed-set decoding of the source tag
(`Radio` = 1, `Emergency` = 2, anything else rejected). -/
def AudioSource.ofU8 : Nat → Option AudioSource
  | 1 => some .Radio
  | 2 => some .Emergency000
  | _ => none

/-- Modelled from the spec: the closed-set decoding of the codec tag
(`Opus` = 1, `Pcm16Le` = 2, anything else rejected). -/
def AudioCodec.ofU8 : Nat → Option AudioCodec
  | 1 => some .Opus
  | 2 => some .Pcm16Le
  | _ => none

/-- Modelled from the spec: `Decode(bytes)` of section 4.1, absent from the source.
The checks come in the order the specification lists them: `TooShort`, `BadMagic`,
`UnsupportedVersion`, `UnknownSource`, `UnknownCodec`, `TruncatedPayload`; on success
the little-endian fields are read at their fixed offsets and the payload is the
`payloadLen` bytes after the header. -/
def Decode (bytes : List Nat) : Except FormatError Packet :=
  if bytes.length < 24 then .error .TooShort
  else if slice bytes 0 4 ≠ ['Q'.toNat, 'D'.toNat, 'A'.toNat, 'V'.toNat] then .error .BadMagic
  else if bytes.getD 4 0 ≠ 1 then .error .UnsupportedVersion
  else
    match AudioSource.ofU8 (bytes.getD 5 0) with
    | none => .error .UnknownSource
    | some source =>
      match AudioCodec.ofU8 (bytes.getD 6 0) with
      | none => .error .UnknownCodec
      | some codec =>
        let payloadLen := readLE (slice bytes 10 2)
        if bytes.length - 24 < payloadLen then .error .TruncatedPayload
        else
          .ok { source := source
                codec := codec
                channels := bytes.getD 7 0
                sampleRate := readLE (slice bytes 8 2)
                payloadLen := payloadLen
                sequence := readLE (slice bytes 12 4)
                timestampMs := readLE (slice bytes 16 8)
                payload := slice bytes 24 payloadLen }

/-! ## Helper lemmas: the writers in closed form -/

theorem and_0xFF (x : Nat) : x &&& 0xFF = x % 256 :=
  Nat.and_pow_two_sub_one_eq_mod x 8

theorem castU8_shift_and (v k : Nat) :
    castU8 ((v >>> (8 * k)) &&& 0xFF) = leByte v k := by
  unfold castU8 leByte
  rw [and_0xFF, Nat.shiftRight_eq_div_pow, Nat.pow_mul]
  norm_num

theorem castU8_and (v : Nat) : castU8 (v &&& 0xFF) = leByte v 0 := by
  have h := castU8_shift_and v 0
  simpa using h

theorem leByte_lt (v i : Nat) : leByte v i < 256 :=
  Nat.mod_lt _ (by decide)

theorem WriteU16LE_eq (out : List Nat) (v : Nat) :
    WriteU16LE out v = out ++ [leByte v 0, leByte v 1] := by
  have h1 := castU8_shift_and v 1
  simp only [Nat.mul_one] at h1
  simp [WriteU16LE, castU8_and, h1]

theorem WriteU32LE_eq (out : List Nat) (v : Nat) :
    WriteU32LE out v = out ++ [leByte v 0, leByte v 1, leByte v 2, leByte v 3] := by
  have h1 := castU8_shift_and v 1
  have h2 := castU8_shift_and v 2
  have h3 := castU8_shift_and v 3
  simp only [Nat.mul_one, Nat.reduceMul] at h1 h2 h3
  simp [WriteU32LE, castU8_and, h1, h2, h3]

theorem WriteU64LE_eq (out : List Nat) (v : Nat) :
    WriteU64LE out v = out ++ [leByte v 0, leByte v 1, leByte v 2, leByte v 3,
      leByte v 4, leByte v 5, leByte v 6, leByte v 7] := by
  simp [WriteU64LE, List.range_succ, castU8_shift_and]

theorem castU16_cappedSize (payload : List Nat) :
    castU16 (cappedSize payload) = cappedSize payload := by
  unfold castU16 cappedSize
  apply Nat.mod_eq_of_lt
  have := Nat.min_le_right payload.length 0xFFFF
  omega

/-- The output of `BuildPacket`, byte by byte. -/
theorem BuildPacket_cons (source : AudioSource) (codec : AudioCodec) (channels sampleRate
    sequence timestampMs : Nat) (payload : List Nat) :
    BuildPacket source codec channels sampleRate sequence timestampMs payload
      = 81 :: 68 :: 65 :: 86 :: 1 :: source.toU8 :: codec.toU8 :: channels
        :: leByte sampleRate 0 :: leByte sampleRate 1
        :: leByte (cappedSize payload) 0 :: leByte (cappedSize payload) 1
        :: leByte sequence 0 :: leByte sequence 1 :: leByte sequence 2 :: leByte sequence 3
        :: leByte timestampMs 0 :: leByte timestampMs 1 :: leByte timestampMs 2
        :: leByte timestampMs 3 :: leByte timestampMs 4 :: leByte timestampMs 5
        :: leByte timestampMs 6 :: leByte timestampMs 7
        :: payload.take (cappedSize payload) := by
  simp [BuildPacket, WriteU16LE_eq, WriteU32LE_eq, WriteU64LE_eq, castU16_cappedSize]

theorem readLE_two (v : Nat) (h : v < 2 ^ 16) : readLE [leByte v 0, leByte v 1] = v := by
  simp only [readLE, leByte]
  omega

theorem readLE_four (v : Nat) (h : v < 2 ^ 32) :
    readLE [leByte v 0, leByte v 1, leByte v 2, leByte v 3] = v := by
  simp only [readLE, leByte]
  omega

theorem readLE_eight (v : Nat) (h : v < 2 ^ 64) :
    readLE [leByte v 0, leByte v 1, leByte v 2, leByte v 3,
      leByte v 4, leByte v 5, leByte v 6, leByte v 7] = v := by
  simp only [readLE, leByte]
  omega

theorem cappedSize_le_length (payload : List Nat) : cappedSize payload ≤ payload.length :=
  Nat.min_le_left _ _

theorem cappedSize_le (payload : List Nat) : cappedSize payload ≤ 65535 :=
  Nat.min_le_right _ _

theorem length_BuildPacket (source : AudioSource) (codec : AudioCodec) (channels sampleRate
    sequence timestampMs : Nat) (payload : List Nat) :
    (BuildPacket source codec channels sampleRate sequence timestampMs payload).length
      = 24 + cappedSize payload := by
  rw [BuildPacket_cons]
  simp only [List.length_cons, List.length_take]
  have := cappedSize_le_length payload
  omega

theorem declaredPayloadLen_BuildPacket (source : AudioSource) (codec : AudioCodec)
    (channels sampleRate sequence timestampMs : Nat) (payload : List Nat) :
    declaredPayloadLen (BuildPacket source codec channels sampleRate sequence timestampMs payload)
      = cappedSize payload := by
  rw [BuildPacket_cons]
  have h : cappedSize payload < 2 ^ 16 := by
    have := cappedSize_le payload
    omega
  simpa [declaredPayloadLen, slice] using readLE_two _ h

theorem body_BuildPacket (source : AudioSource) (codec : AudioCodec)
    (channels sampleRate sequence timestampMs : Nat) (payload : List Nat) :
    body (BuildPacket source codec channels sampleRate sequence timestampMs payload)
      = payload.take (cappedSize payload) := by
  rw [BuildPacket_cons]
  simp [body]

theorem AudioSource_ofU8_toU8 (source : AudioSource) :
    AudioSource.ofU8 source.toU8 = some source := by
  cases source <;> rfl

theorem AudioCodec_ofU8_toU8 (codec : AudioCodec) :
    AudioCodec.ofU8 codec.toU8 = some codec := by
  cases codec <;> rfl

theorem cappedSize_of_le (payload : List Nat) (h : payload.length ≤ 65535) :
    cappedSize payload = payload.length :=
  Nat.min_eq_left h

theorem cappedSize_of_lt (payload : List Nat) (h : 65535 < payload.length) :
    cappedSize payload = 65535 :=
  Nat.min_eq_right (Nat.le_of_lt h)

/-! ## The encoder's contract -/

/-- C1: for every input, the output of `BuildPacket` is exactly the concatenation of
the magic `QDAV`, the version byte 1, the source byte, the codec byte, `channels`,
`sampleRate` as 2 little-endian bytes, `min(len(payload), 65535)` as 2 little-endian
bytes, `sequence` as 4 little-endian bytes, `timestampMs` as 8 little-endian bytes
and the first `min(len(payload), 65535)` bytes of the payload. -/
theorem BuildPacket_layout (source : AudioSource) (codec : AudioCodec) (channels sampleRate
    sequence timestampMs : Nat) (payload : List Nat) :
    BuildPacket source codec channels sampleRate sequence timestampMs payload
      = ['Q'.toNat, 'D'.toNat, 'A'.toNat, 'V'.toNat] ++ [1] ++ [source.toU8] ++ [codec.toU8]
        ++ [channels] ++ leBytes sampleRate 2 ++ leBytes (min payload.length 65535) 2
        ++ leBytes sequence 4 ++ leBytes timestampMs 8
        ++ payload.take (min payload.length 65535) := by
  rw [BuildPacket_cons]
  simp [leBytes, List.range_succ, cappedSize]

/-- C2: for every input, the output of `BuildPacket` is `24 + min(len(payload), 65535)`
bytes long; the 1920-byte payload built in `main` yields a 1944-byte packet whatever
timestamp the clock gives. -/
theorem BuildPacket_length :
    (∀ (source : AudioSource) (codec : AudioCodec) (channels sampleRate sequence
        timestampMs : Nat) (payload : List Nat),
      (BuildPacket source codec channels sampleRate sequence timestampMs payload).length
        = 24 + min payload.length 65535)
    ∧ fakePcmPayload.length = 1920
    ∧ ∀ nowMs : Nat, (mainPacket nowMs).length = 1944 := by
  refine ⟨fun source codec channels sampleRate sequence timestampMs payload => ?_, ?_, ?_⟩
  · rw [length_BuildPacket]; rfl
  · exact List.length_replicate 1920 0
  · intro nowMs
    have h : fakePcmPayload.length = 1920 := List.length_replicate 1920 0
    rw [mainPacket, length_BuildPacket, cappedSize, h]
    decide

/-- C3: round trip.  For every input whose `sampleRate`, `sequence` and `timestampMs`
fit their 16, 32 and 64 bits and whose payload has at most 65535 bytes, the
specification's `Decode` accepts the output of `BuildPacket` and returns the input
fields and the input payload. -/
theorem Decode_BuildPacket (source : AudioSource) (codec : AudioCodec) (channels sampleRate
    sequence timestampMs : Nat) (payload : List Nat)
    (hRate : sampleRate < 2 ^ 16) (hSeq : sequence < 2 ^ 32) (hTs : timestampMs < 2 ^ 64)
    (hLen : payload.length ≤ 65535) :
    Decode (BuildPacket source codec channels sampleRate sequence timestampMs payload)
      = .ok { source := source
              codec := codec
              channels := channels
              sampleRate := sampleRate
              payloadLen := payload.length
              sequence := sequence
              timestampMs := timestampMs
              payload := payload } := by
  have hCap := cappedSize_of_le payload hLen
  have hPl : payload.length < 2 ^ 16 := by omega
  rw [BuildPacket_cons, hCap]
  simp [Decode, slice, AudioSource_ofU8_toU8, AudioCodec_ofU8_toU8, readLE_two _ hRate,
    readLE_two _ hPl, readLE_four _ hSeq, readLE_eight _ hTs]

/-- Witness of C3: the packet of `main` at a fixed clock reading, with a short payload. -/
theorem Decode_BuildPacket_witness :
    Decode (BuildPacket .Radio .Pcm16Le 1 48000 1 1700000000000 [1, 2, 3])
      = .ok { source := .Radio
              codec := .Pcm16Le
              channels := 1
              sampleRate := 48000
              payloadLen := [1, 2, 3].length
              sequence := 1
              timestampMs := 1700000000000
              payload := [1, 2, 3] } :=
  Decode_BuildPacket .Radio .Pcm16Le 1 48000 1 1700000000000 [1, 2, 3]
    (by decide) (by decide) (by decide) (by decide)

/-- C4: truncation.  For every payload longer than 65535 bytes, the packet declares
`payloadLen = 65535` at offsets 10-11, its body after the 24-byte header is the first
65535 bytes of the input, the input is that body followed by the dropped bytes, and
the packet is 65559 bytes long. -/
theorem BuildPacket_truncates (source : AudioSource) (codec : AudioCodec) (channels
    sampleRate sequence timestampMs : Nat) (payload : List Nat)
    (hLong : 65535 < payload.length) :
    declaredPayloadLen (BuildPacket source codec channels sampleRate sequence timestampMs payload)
        = 65535
    ∧ body (BuildPacket source codec channels sampleRate sequence timestampMs payload)
        = payload.take 65535
    ∧ body (BuildPacket source codec channels sampleRate sequence timestampMs payload)
        ++ payload.drop 65535 = payload
    ∧ (payload.drop 65535).length = payload.length - 65535
    ∧ (BuildPacket source codec channels sampleRate sequence timestampMs payload).length
        = 65559 := by
  have hCap := cappedSize_of_lt payload hLong
  rw [declaredPayloadLen_BuildPacket, body_BuildPacket, length_BuildPacket, hCap]
  exact ⟨rfl, rfl, List.take_append_drop _ _, List.length_drop _ _, rfl⟩

/-- Witness of C4: 70000 bytes of value `0xAB`; 4465 bytes are dropped. -/
theorem BuildPacket_truncates_witness :
    (65535 < (List.replicate 70000 0xAB).length
      ∧ (List.replicate 70000 0xAB).length - 65535 = 4465)
    ∧ declaredPayloadLen (BuildPacket .Radio .Pcm16Le 1 48000 1 0 (List.replicate 70000 0xAB))
        = 65535
    ∧ body (BuildPacket .Radio .Pcm16Le 1 48000 1 0 (List.replicate 70000 0xAB))
        = (List.replicate 70000 0xAB).take 65535
    ∧ body (BuildPacket .Radio .Pcm16Le 1 48000 1 0 (List.replicate 70000 0xAB))
        ++ (List.replicate 70000 0xAB).drop 65535 = List.replicate 70000 0xAB
    ∧ ((List.replicate 70000 0xAB).drop 65535).length
        = (List.replicate 70000 0xAB).length - 65535
    ∧ (BuildPacket .Radio .Pcm16Le 1 48000 1 0 (List.replicate 70000 0xAB)).length = 65559 :=
  ⟨by rw [List.length_replicate]; decide,
    BuildPacket_truncates .Radio .Pcm16Le 1 48000 1 0 (List.replicate 70000 0xAB)
      (by rw [List.length_replicate]; decide)⟩

/-- C5: packet invariant at encode time.  In every output of `BuildPacket` the 16-bit
little-endian value at offsets 10-11 is the number of bytes that follow the 24-byte
header, and the conversion of the capped size to 16 bits does not wrap. -/
theorem BuildPacket_payloadLen_invariant (source : AudioSource) (codec : AudioCodec)
    (channels sampleRate sequence timestampMs : Nat) (payload : List Nat) :
    declaredPayloadLen (BuildPacket source codec channels sampleRate sequence timestampMs payload)
        = (body (BuildPacket source codec channels sampleRate sequence timestampMs payload)).length
    ∧ declaredPayloadLen (BuildPacket source codec channels sampleRate sequence timestampMs payload)
        = (BuildPacket source codec channels sampleRate sequence timestampMs payload).length - 24
    ∧ castU16 (cappedSize payload) = cappedSize payload := by
  rw [declaredPayloadLen_BuildPacket, body_BuildPacket, length_BuildPacket, List.length_take]
  have := cappedSize_le_length payload
  exact ⟨by omega, by omega, castU16_cappedSize payload⟩

theorem cappedSize_fakePcmPayload : cappedSize (List.replicate 1920 0) = 1920 := by
  rw [cappedSize, List.length_replicate]
  decide

/-- C6, as the specification states it, fails: with timestamp 1700000000000 the byte
at offset 17 is `0x68`, not `0x38`; the listed timestamp bytes `00 38 6E 2B 7C 01 00 00`
are those of 1632816216064. -/
theorem BuildPacket_example_listed_bytes_differ :
    BuildPacket .Radio .Pcm16Le 1 48000 1 1700000000000 (List.replicate 1920 0)
      ≠ [0x51, 0x44, 0x41, 0x56, 0x01, 0x01, 0x02, 0x01, 0x80, 0xBB, 0x80, 0x07,
          0x01, 0x00, 0x00, 0x00, 0x00, 0x38, 0x6E, 0x2B, 0x7C, 0x01, 0x00, 0x00]
        ++ List.replicate 1920 0 := by
  intro h
  rw [BuildPacket_cons] at h
  have h17 := congrArg (fun l => l[17]?) h
  simp only [List.cons_append, List.getElem?_cons_succ, List.getElem?_cons_zero,
    Option.some.injEq, leByte] at h17
  exact absurd h17 (by decide)

/-- C6, amended: `BuildPacket(Radio, Pcm16Le, 1, 48000, 1, 1700000000000, 1920 zero bytes)`
is the 1944-byte sequence whose 24 header bytes are
`51 44 41 56 01 01 02 01 80 BB 80 07 01 00 00 00 00 68 E5 CF 8B 01 00 00`, followed by
1920 zero bytes. -/
theorem BuildPacket_example_bytes :
    BuildPacket .Radio .Pcm16Le 1 48000 1 1700000000000 (List.replicate 1920 0)
      = [0x51, 0x44, 0x41, 0x56, 0x01, 0x01, 0x02, 0x01, 0x80, 0xBB, 0x80, 0x07,
          0x01, 0x00, 0x00, 0x00, 0x00, 0x68, 0xE5, 0xCF, 0x8B, 0x01, 0x00, 0x00]
        ++ List.replicate 1920 0
    ∧ (BuildPacket .Radio .Pcm16Le 1 48000 1 1700000000000 (List.replicate 1920 0)).length
      = 1944 := by
  refine ⟨?_, ?_⟩
  · rw [BuildPacket_cons, cappedSize_fakePcmPayload, List.take_replicate]
    simp only [leByte, AudioSource.toU8, AudioCodec.toU8]
    rfl
  · rw [length_BuildPacket, cappedSize_fakePcmPayload]

/-- C7: enumerated tags on the wire.  The byte at offset 5 is 1 for `Radio` and 2 for
`Emergency000`, the byte at offset 6 is 1 for `Opus` and 2 for `Pcm16Le`; hence for
every input both bytes lie in the set a decoder accepts, the one with 1 and 2. -/
theorem BuildPacket_tags (codec : AudioCodec) (source : AudioSource) (channels sampleRate
    sequence timestampMs : Nat) (payload : List Nat) :
    (BuildPacket .Radio codec channels sampleRate sequence timestampMs payload)[5]? = some 1
    ∧ (BuildPacket .Emergency000 codec channels sampleRate sequence timestampMs payload)[5]?
        = some 2
    ∧ (BuildPacket source .Opus channels sampleRate sequence timestampMs payload)[6]? = some 1
    ∧ (BuildPacket source .Pcm16Le channels sampleRate sequence timestampMs payload)[6]?
        = some 2
    ∧ (∃ s c : Nat,
        (BuildPacket source codec channels sampleRate sequence timestampMs payload)[5]? = some s
        ∧ (BuildPacket source codec channels sampleRate sequence timestampMs payload)[6]? = some c
        ∧ (s = 1 ∨ s = 2) ∧ (c = 1 ∨ c = 2)
        ∧ AudioSource.ofU8 s = some source ∧ AudioCodec.ofU8 c = some codec) := by
  simp only [BuildPacket_cons]
  refine ⟨rfl, rfl, rfl, rfl, source.toU8, codec.toU8, rfl, rfl, ?_, ?_,
    AudioSource_ofU8_toU8 source, AudioCodec_ofU8_toU8 codec⟩
  · cases source <;> simp [AudioSource.toU8]
  · cases codec <;> simp [AudioCodec.toU8]

/-- C8: encoding cannot fail.  For every input the checked run of `BuildPacket` takes
no failing branch and returns the bytes of `BuildPacket`; the copied range
`[0, min(len(payload), 65535))` lies within `payload`; the all-zero input with an empty
payload is encoded as a bare 24-byte header. -/
theorem BuildPacket_total (source : AudioSource) (codec : AudioCodec) (channels sampleRate
    sequence timestampMs : Nat) (payload : List Nat) :
    BuildPacketChecked source codec channels sampleRate sequence timestampMs payload
        = some (BuildPacket source codec channels sampleRate sequence timestampMs payload)
    ∧ cappedSize payload ≤ payload.length
    ∧ cappedSize payload = min payload.length 65535
    ∧ BuildPacketChecked source codec 0 0 0 timestampMs []
        = some (BuildPacket source codec 0 0 0 timestampMs [])
    ∧ (BuildPacket source codec 0 0 0 timestampMs []).length = 24 := by
  have key : ∀ (ch sr sq ts : Nat) (p : List Nat),
      BuildPacketChecked source codec ch sr sq ts p
        = some (BuildPacket source codec ch sr sq ts p) := by
    intro ch sr sq ts p
    have h1 := cappedSize_le_length p
    have h2 : cappedSize p < 2 ^ 63 := by
      have := cappedSize_le p
      omega
    simp only [BuildPacketChecked, BuildPacket, insertPrefix, h1, h2, and_self, if_true]
  refine ⟨key _ _ _ _ _, cappedSize_le_length payload, rfl, key _ _ _ _ _, ?_⟩
  rw [length_BuildPacket]
  rfl

/-- C9: truncation is detectable by the caller.  The `payloadLen` declared at offsets
10-11 equals `len(payload)` if and only if `len(payload) <= 65535`. -/
theorem BuildPacket_truncation_detectable (source : AudioSource) (codec : AudioCodec)
    (channels sampleRate sequence timestampMs : Nat) (payload : List Nat) :
    (declaredPayloadLen
        (BuildPacket source codec channels sampleRate sequence timestampMs payload)
      = payload.length ↔ payload.length ≤ 65535)
    ∧ (declaredPayloadLen
        (BuildPacket source codec channels sampleRate sequence timestampMs payload)
      ≠ payload.length ↔
        (body (BuildPacket source codec channels sampleRate sequence timestampMs payload)).length
          < payload.length) := by
  rw [declaredPayloadLen_BuildPacket, body_BuildPacket, List.length_take]
  unfold cappedSize
  omega

/-- C10: boundary of the 16-bit length field.  A payload `p` of exactly 65535 bytes is
encoded in full with `payloadLen` bytes `FF FF`; a payload `q` of exactly 65536 bytes
is encoded with `payloadLen` bytes `FF FF`, although its length converted to 16 bits is
0, i.e. bytes `00 00`, and its body omits exactly the last input byte. -/
theorem BuildPacket_length_boundary (source : AudioSource) (codec : AudioCodec)
    (channels sampleRate sequence timestampMs : Nat) (p q : List Nat)
    (hp : p.length = 65535) (hq : q.length = 65536) :
    (slice (BuildPacket source codec channels sampleRate sequence timestampMs p) 10 2
        = [0xFF, 0xFF]
      ∧ body (BuildPacket source codec channels sampleRate sequence timestampMs p) = p)
    ∧ (slice (BuildPacket source codec channels sampleRate sequence timestampMs q) 10 2
        = [0xFF, 0xFF]
      ∧ slice (BuildPacket source codec channels sampleRate sequence timestampMs q) 10 2
        ≠ leBytes (castU16 q.length) 2
      ∧ leBytes (castU16 q.length) 2 = [0x00, 0x00]
      ∧ body (BuildPacket source codec channels sampleRate sequence timestampMs q)
        = q.dropLast
      ∧ (body (BuildPacket source codec channels sampleRate sequence timestampMs q)).length
        + 1 = q.length) := by
  have hcp : cappedSize p = 65535 := by rw [cappedSize, hp]; rfl
  have hcq : cappedSize q = 65535 := by rw [cappedSize, hq]; rfl
  have hle : leBytes (castU16 q.length) 2 = [0x00, 0x00] := by rw [hq]; rfl
  have hsp : slice (BuildPacket source codec channels sampleRate sequence timestampMs p) 10 2
      = [0xFF, 0xFF] := by
    rw [BuildPacket_cons, hcp]; rfl
  have hsq : slice (BuildPacket source codec channels sampleRate sequence timestampMs q) 10 2
      = [0xFF, 0xFF] := by
    rw [BuildPacket_cons, hcq]; rfl
  refine ⟨⟨hsp, ?_⟩, hsq, ?_, hle, ?_, ?_⟩
  · rw [body_BuildPacket, hcp, ← hp]; exact List.take_length p
  · rw [hsq, hle]; decide
  · rw [body_BuildPacket, hcq, List.dropLast_eq_take, hq]
  · rw [body_BuildPacket, hcq, List.length_take, hq]; rfl

/-- Witness of C10: 65535 bytes of value 7, and the same followed by one byte 9. -/
theorem BuildPacket_length_boundary_witness :
    (slice (BuildPacket .Radio .Opus 2 48000 5 9 (List.replicate 65535 7)) 10 2
        = [0xFF, 0xFF]
      ∧ body (BuildPacket .Radio .Opus 2 48000 5 9 (List.replicate 65535 7))
        = List.replicate 65535 7)
    ∧ (slice (BuildPacket .Radio .Opus 2 48000 5 9 (List.replicate 65535 7 ++ [9])) 10 2
        = [0xFF, 0xFF]
      ∧ slice (BuildPacket .Radio .Opus 2 48000 5 9 (List.replicate 65535 7 ++ [9])) 10 2
        ≠ leBytes (castU16 (List.replicate 65535 7 ++ [9]).length) 2
      ∧ leBytes (castU16 (List.replicate 65535 7 ++ [9]).length) 2 = [0x00, 0x00]
      ∧ body (BuildPacket .Radio .Opus 2 48000 5 9 (List.replicate 65535 7 ++ [9]))
        = (List.replicate 65535 7 ++ [9]).dropLast
      ∧ (body (BuildPacket .Radio .Opus 2 48000 5 9 (List.replicate 65535 7 ++ [9]))).length
        + 1 = (List.replicate 65535 7 ++ [9]).length) :=
  BuildPacket_length_boundary .Radio .Opus 2 48000 5 9
    (List.replicate 65535 7) (List.replicate 65535 7 ++ [9])
    (List.length_replicate 65535 7)
    (by rw [List.length_append, List.length_replicate]; rfl)

/-! ## Behaviour of the fields and of the writers -/

theorem leBytes_two (v : Nat) : leBytes v 2 = [leByte v 0, leByte v 1] := rfl

theorem leBytes_four (v : Nat) :
    leBytes v 4 = [leByte v 0, leByte v 1, leByte v 2, leByte v 3] := rfl

theorem leBytes_eight (v : Nat) :
    leBytes v 8 = [leByte v 0, leByte v 1, leByte v 2, leByte v 3,
      leByte v 4, leByte v 5, leByte v 6, leByte v 7] := rfl

/-- The first 12 bytes of a packet do not depend on `sequence`. -/
theorem take12_BuildPacket (source : AudioSource) (codec : AudioCodec) (channels sampleRate
    sequence timestampMs : Nat) (payload : List Nat) :
    (BuildPacket source codec channels sampleRate sequence timestampMs payload).take 12
      = [81, 68, 65, 86, 1, source.toU8, codec.toU8, channels,
          leByte sampleRate 0, leByte sampleRate 1,
          leByte (cappedSize payload) 0, leByte (cappedSize payload) 1] := by
  rw [BuildPacket_cons]
  rfl

/-- The bytes of a packet from offset 16 on do not depend on `sequence`. -/
theorem drop16_BuildPacket (source : AudioSource) (codec : AudioCodec) (channels sampleRate
    sequence timestampMs : Nat) (payload : List Nat) :
    (BuildPacket source codec channels sampleRate sequence timestampMs payload).drop 16
      = leBytes timestampMs 8 ++ payload.take (cappedSize payload) := by
  rw [BuildPacket_cons]
  rfl

theorem sequence_BuildPacket (source : AudioSource) (codec : AudioCodec) (channels sampleRate
    sequence timestampMs : Nat) (payload : List Nat) :
    slice (BuildPacket source codec channels sampleRate sequence timestampMs payload) 12 4
      = leBytes sequence 4 := by
  rw [BuildPacket_cons]
  rfl

/-- C11: the sequence number is carried without affecting anything else.  Two calls
that differ only in `sequence` give outputs of the same length that agree at every
offset outside 12-15, and offsets 12-15, read as a little-endian 32-bit integer, give
back each call's `sequence`, for every value below `2 ^ 32`. -/
theorem BuildPacket_sequence_frame (source : AudioSource) (codec : AudioCodec) (channels
    sampleRate timestampMs : Nat) (payload : List Nat) (seq1 seq2 : Nat)
    (h1 : seq1 < 2 ^ 32) (h2 : seq2 < 2 ^ 32) :
    (BuildPacket source codec channels sampleRate seq1 timestampMs payload).length
        = (BuildPacket source codec channels sampleRate seq2 timestampMs payload).length
    ∧ (∀ i : Nat, i < 12 ∨ 16 ≤ i →
        (BuildPacket source codec channels sampleRate seq1 timestampMs payload)[i]?
          = (BuildPacket source codec channels sampleRate seq2 timestampMs payload)[i]?)
    ∧ readLE (slice (BuildPacket source codec channels sampleRate seq1 timestampMs payload) 12 4)
        = seq1
    ∧ readLE (slice (BuildPacket source codec channels sampleRate seq2 timestampMs payload) 12 4)
        = seq2 := by
  refine ⟨?_, ?_, ?_, ?_⟩
  · rw [length_BuildPacket, length_BuildPacket]
  · intro i hi
    rcases hi with hi | hi
    · have e1 := List.getElem?_take_of_lt
        (l := BuildPacket source codec channels sampleRate seq1 timestampMs payload) hi
      have e2 := List.getElem?_take_of_lt
        (l := BuildPacket source codec channels sampleRate seq2 timestampMs payload) hi
      rw [← e1, ← e2, take12_BuildPacket, take12_BuildPacket]
    · obtain ⟨k, rfl⟩ := Nat.exists_eq_add_of_le hi
      have e1 := List.getElem?_drop
        (BuildPacket source codec channels sampleRate seq1 timestampMs payload) 16 k
      have e2 := List.getElem?_drop
        (BuildPacket source codec channels sampleRate seq2 timestampMs payload) 16 k
      rw [← e1, ← e2, drop16_BuildPacket, drop16_BuildPacket]
  · rw [sequence_BuildPacket, leBytes_four]
    exact readLE_four seq1 h1
  · rw [sequence_BuildPacket, leBytes_four]
    exact readLE_four seq2 h2

/-- Witness of C11: sequence numbers 0 and `2 ^ 32 - 1` on a three-byte payload. -/
theorem BuildPacket_sequence_frame_witness :
    (BuildPacket .Radio .Opus 2 48000 0 9 [1, 2, 3]).length
        = (BuildPacket .Radio .Opus 2 48000 4294967295 9 [1, 2, 3]).length
    ∧ (∀ i : Nat, i < 12 ∨ 16 ≤ i →
        (BuildPacket .Radio .Opus 2 48000 0 9 [1, 2, 3])[i]?
          = (BuildPacket .Radio .Opus 2 48000 4294967295 9 [1, 2, 3])[i]?)
    ∧ readLE (slice (BuildPacket .Radio .Opus 2 48000 0 9 [1, 2, 3]) 12 4) = 0
    ∧ readLE (slice (BuildPacket .Radio .Opus 2 48000 4294967295 9 [1, 2, 3]) 12 4)
        = 4294967295 :=
  BuildPacket_sequence_frame .Radio .Opus 2 48000 9 [1, 2, 3] 0 4294967295
    (by decide) (by decide)

/-- C12: the little-endian helpers are exact.  For every 16-, 32- and 64-bit value `v`
the bytes appended by `WriteU16LE`, `WriteU32LE` and `WriteU64LE` are
`b_i = (v / 256 ^ i) mod 256` for `i < 2, 4, 8`, least significant first, and the sum
of `b_i * 256 ^ i` gives back `v`. -/
theorem WriteLE_exact (out : List Nat) (v16 v32 v64 : Nat)
    (h16 : v16 < 2 ^ 16) (h32 : v32 < 2 ^ 32) (h64 : v64 < 2 ^ 64) :
    (WriteU16LE out v16 = out ++ (List.range 2).map (fun i => v16 / 256 ^ i % 256)
      ∧ (Finset.range 2).sum (fun i => (v16 / 256 ^ i % 256) * 256 ^ i) = v16
      ∧ readLE ((WriteU16LE out v16).drop out.length) = v16)
    ∧ (WriteU32LE out v32 = out ++ (List.range 4).map (fun i => v32 / 256 ^ i % 256)
      ∧ (Finset.range 4).sum (fun i => (v32 / 256 ^ i % 256) * 256 ^ i) = v32
      ∧ readLE ((WriteU32LE out v32).drop out.length) = v32)
    ∧ (WriteU64LE out v64 = out ++ (List.range 8).map (fun i => v64 / 256 ^ i % 256)
      ∧ (Finset.range 8).sum (fun i => (v64 / 256 ^ i % 256) * 256 ^ i) = v64
      ∧ readLE ((WriteU64LE out v64).drop out.length) = v64) := by
  refine ⟨⟨?_, ?_, ?_⟩, ⟨?_, ?_, ?_⟩, ⟨?_, ?_, ?_⟩⟩
  · rw [WriteU16LE_eq]; rfl
  · simp only [Finset.sum_range_succ, Finset.sum_range_zero]
    omega
  · rw [WriteU16LE_eq, List.drop_left]
    exact readLE_two v16 h16
  · rw [WriteU32LE_eq]; rfl
  · simp only [Finset.sum_range_succ, Finset.sum_range_zero]
    omega
  · rw [WriteU32LE_eq, List.drop_left]
    exact readLE_four v32 h32
  · rw [WriteU64LE_eq]; rfl
  · simp only [Finset.sum_range_succ, Finset.sum_range_zero]
    omega
  · rw [WriteU64LE_eq, List.drop_left]
    exact readLE_eight v64 h64

/-- Witness of C12: the sample rate 48000, the value `0x12345678` and the timestamp
1700000000000, appended to a three-byte buffer. -/
theorem WriteLE_exact_witness :
    (WriteU16LE [1, 2, 3] 48000
        = [1, 2, 3] ++ (List.range 2).map (fun i => 48000 / 256 ^ i % 256)
      ∧ (Finset.range 2).sum (fun i => (48000 / 256 ^ i % 256) * 256 ^ i) = 48000
      ∧ readLE ((WriteU16LE [1, 2, 3] 48000).drop [1, 2, 3].length) = 48000)
    ∧ (WriteU32LE [1, 2, 3] 0x12345678
        = [1, 2, 3] ++ (List.range 4).map (fun i => 0x12345678 / 256 ^ i % 256)
      ∧ (Finset.range 4).sum (fun i => (0x12345678 / 256 ^ i % 256) * 256 ^ i) = 0x12345678
      ∧ readLE ((WriteU32LE [1, 2, 3] 0x12345678).drop [1, 2, 3].length) = 0x12345678)
    ∧ (WriteU64LE [1, 2, 3] 1700000000000
        = [1, 2, 3] ++ (List.range 8).map (fun i => 1700000000000 / 256 ^ i % 256)
      ∧ (Finset.range 8).sum (fun i => (1700000000000 / 256 ^ i % 256) * 256 ^ i)
        = 1700000000000
      ∧ readLE ((WriteU64LE [1, 2, 3] 1700000000000).drop [1, 2, 3].length)
        = 1700000000000) :=
  WriteLE_exact [1, 2, 3] 48000 0x12345678 1700000000000 (by decide) (by decide) (by decide)

theorem cappedSize_take (payload : List Nat) :
    cappedSize (payload.take (cappedSize payload)) = cappedSize payload := by
  unfold cappedSize
  rw [List.length_take]
  omega

/-- The packet is a function of the capped size and of the copied prefix only. -/
theorem BuildPacket_congr (source : AudioSource) (codec : AudioCodec) (channels sampleRate
    sequence timestampMs : Nat) (p q : List Nat) (hc : cappedSize p = cappedSize q)
    (ht : p.take (cappedSize p) = q.take (cappedSize q)) :
    BuildPacket source codec channels sampleRate sequence timestampMs p
      = BuildPacket source codec channels sampleRate sequence timestampMs q := by
  rw [BuildPacket_cons, BuildPacket_cons, ht, hc]

/-- C13: encoding is idempotent under truncation.  `BuildPacket` gives the same bytes
on a payload and on its first `min(len(payload), 65535)` bytes; consequently two
payloads of length at least 65535 that agree on their first 65535 bytes encode to
identical packets. -/
theorem BuildPacket_truncation_idempotent :
    (∀ (source : AudioSource) (codec : AudioCodec) (channels sampleRate sequence
        timestampMs : Nat) (payload : List Nat),
      BuildPacket source codec channels sampleRate sequence timestampMs payload
        = BuildPacket source codec channels sampleRate sequence timestampMs
            (payload.take (min payload.length 65535)))
    ∧ (∀ (source : AudioSource) (codec : AudioCodec) (channels sampleRate sequence
        timestampMs : Nat) (p q : List Nat),
      65535 ≤ p.length → 65535 ≤ q.length → p.take 65535 = q.take 65535 →
      BuildPacket source codec channels sampleRate sequence timestampMs p
        = BuildPacket source codec channels sampleRate sequence timestampMs q) := by
  constructor
  · intro source codec channels sampleRate sequence timestampMs payload
    have hc := cappedSize_take payload
    show BuildPacket source codec channels sampleRate sequence timestampMs payload
      = BuildPacket source codec channels sampleRate sequence timestampMs
          (payload.take (cappedSize payload))
    apply BuildPacket_congr
    · exact hc.symm
    · rw [hc, List.take_take, Nat.min_self]
  · intro source codec channels sampleRate sequence timestampMs p q hp hq hpq
    have hcp : cappedSize p = 65535 := Nat.min_eq_right hp
    have hcq : cappedSize q = 65535 := Nat.min_eq_right hq
    apply BuildPacket_congr
    · rw [hcp, hcq]
    · rw [hcp, hcq, hpq]

/-- Witness of C13: two payloads of 65536 and 65537 bytes that share their first
65535 bytes and differ afterwards. -/
theorem BuildPacket_truncation_idempotent_witness :
    BuildPacket .Radio .Opus 2 48000 5 9 (List.replicate 65535 7 ++ [1])
      = BuildPacket .Radio .Opus 2 48000 5 9 (List.replicate 65535 7 ++ [2, 3]) :=
  BuildPacket_truncation_idempotent.2 .Radio .Opus 2 48000 5 9
    (List.replicate 65535 7 ++ [1]) (List.replicate 65535 7 ++ [2, 3])
    (by rw [List.length_append, List.length_replicate]; decide)
    (by rw [List.length_append, List.length_replicate]; decide)
    (by rw [List.take_left' (List.length_replicate 65535 7),
      List.take_left' (List.length_replicate 65535 7)])

theorem AudioSource_toU8_injective (a b : AudioSource) (h : a.toU8 = b.toU8) : a = b := by
  cases a <;> cases b <;> first | rfl | exact absurd h (by decide)

theorem AudioCodec_toU8_injective (a b : AudioCodec) (h : a.toU8 = b.toU8) : a = b := by
  cases a <;> cases b <;> first | rfl | exact absurd h (by decide)

theorem leByte_two_injective (v w : Nat) (hv : v < 2 ^ 16) (hw : w < 2 ^ 16)
    (h0 : leByte v 0 = leByte w 0) (h1 : leByte v 1 = leByte w 1) : v = w := by
  rw [← readLE_two v hv, ← readLE_two w hw, h0, h1]

theorem leByte_four_injective (v w : Nat) (hv : v < 2 ^ 32) (hw : w < 2 ^ 32)
    (h0 : leByte v 0 = leByte w 0) (h1 : leByte v 1 = leByte w 1)
    (h2 : leByte v 2 = leByte w 2) (h3 : leByte v 3 = leByte w 3) : v = w := by
  rw [← readLE_four v hv, ← readLE_four w hw, h0, h1, h2, h3]

theorem leByte_eight_injective (v w : Nat) (hv : v < 2 ^ 64) (hw : w < 2 ^ 64)
    (h0 : leByte v 0 = leByte w 0) (h1 : leByte v 1 = leByte w 1)
    (h2 : leByte v 2 = leByte w 2) (h3 : leByte v 3 = leByte w 3)
    (h4 : leByte v 4 = leByte w 4) (h5 : leByte v 5 = leByte w 5)
    (h6 : leByte v 6 = leByte w 6) (h7 : leByte v 7 = leByte w 7) : v = w := by
  rw [← readLE_eight v hv, ← readLE_eight w hw, h0, h1, h2, h3, h4, h5, h6, h7]

/-- C14: `BuildPacket` is injective on non-truncated inputs.  For two argument tuples
whose `sampleRate`, `sequence` and `timestampMs` fit their 16, 32 and 64 bits and
whose payloads have at most 65535 bytes, equal outputs imply equal tuples. -/
theorem BuildPacket_injective (source source' : AudioSource) (codec codec' : AudioCodec)
    (channels channels' sampleRate sampleRate' sequence sequence' timestampMs
      timestampMs' : Nat) (payload payload' : List Nat)
    (hRate : sampleRate < 2 ^ 16) (hRate' : sampleRate' < 2 ^ 16)
    (hSeq : sequence < 2 ^ 32) (hSeq' : sequence' < 2 ^ 32)
    (hTs : timestampMs < 2 ^ 64) (hTs' : timestampMs' < 2 ^ 64)
    (hLen : payload.length ≤ 65535) (hLen' : payload'.length ≤ 65535)
    (hEq : BuildPacket source codec channels sampleRate sequence timestampMs payload
      = BuildPacket source' codec' channels' sampleRate' sequence' timestampMs' payload') :
    source = source' ∧ codec = codec' ∧ channels = channels' ∧ sampleRate = sampleRate'
      ∧ sequence = sequence' ∧ timestampMs = timestampMs' ∧ payload = payload' := by
  rw [BuildPacket_cons, BuildPacket_cons, cappedSize_of_le payload hLen,
    cappedSize_of_le payload' hLen', List.take_length, List.take_length] at hEq
  simp only [List.cons.injEq] at hEq
  obtain ⟨-, -, -, -, -, hs, hc, hch, hr0, hr1, -, -, hq0, hq1, hq2, hq3,
    ht0, ht1, ht2, ht3, ht4, ht5, ht6, ht7, hp⟩ := hEq
  exact ⟨AudioSource_toU8_injective _ _ hs, AudioCodec_toU8_injective _ _ hc, hch,
    leByte_two_injective _ _ hRate hRate' hr0 hr1,
    leByte_four_injective _ _ hSeq hSeq' hq0 hq1 hq2 hq3,
    leByte_eight_injective _ _ hTs hTs' ht0 ht1 ht2 ht3 ht4 ht5 ht6 ht7, hp⟩

/-- Witness of C14: the packet of `main` at a fixed clock reading, with a short payload. -/
theorem BuildPacket_injective_witness :
    AudioSource.Radio = AudioSource.Radio ∧ AudioCodec.Pcm16Le = AudioCodec.Pcm16Le
      ∧ 1 = 1 ∧ 48000 = 48000 ∧ 1 = 1 ∧ 1700000000000 = 1700000000000
      ∧ [1, 2, 3] = [1, 2, 3] :=
  BuildPacket_injective .Radio .Radio .Pcm16Le .Pcm16Le 1 1 48000 48000 1 1
    1700000000000 1700000000000 [1, 2, 3] [1, 2, 3]
    (by decide) (by decide) (by decide) (by decide) (by decide) (by decide)
    (by decide) (by decide) rfl

/-- The 24 header bytes of a packet: the payload enters through `cappedSize` only. -/
theorem take24_BuildPacket (source : AudioSource) (codec : AudioCodec) (channels sampleRate
    sequence timestampMs : Nat) (payload : List Nat) :
    (BuildPacket source codec channels sampleRate sequence timestampMs payload).take 24
      = [81, 68, 65, 86, 1, source.toU8, codec.toU8, channels]
        ++ leBytes sampleRate 2 ++ leBytes (cappedSize payload) 2
        ++ leBytes sequence 4 ++ leBytes timestampMs 8 := by
  rw [BuildPacket_cons]
  rfl

/-- C15: the header depends on the payload only through its length.  For two payloads
of the same length, or both longer than 65535 bytes, and the same other arguments,
the first 24 bytes of the two outputs are identical; in particular the header of a
payload is the header of as many zero bytes. -/
theorem BuildPacket_header_independent (source : AudioSource) (codec : AudioCodec)
    (channels sampleRate sequence timestampMs : Nat) (p q : List Nat)
    (h : p.length = q.length ∨ (65535 < p.length ∧ 65535 < q.length)) :
    (BuildPacket source codec channels sampleRate sequence timestampMs p).take 24
        = (BuildPacket source codec channels sampleRate sequence timestampMs q).take 24
    ∧ (BuildPacket source codec channels sampleRate sequence timestampMs p).take 24
        = (BuildPacket source codec channels sampleRate sequence timestampMs
            (List.replicate p.length 0)).take 24 := by
  have hc : cappedSize p = cappedSize q := by
    rcases h with h | ⟨hp, hq⟩
    · rw [cappedSize, cappedSize, h]
    · rw [cappedSize_of_lt p hp, cappedSize_of_lt q hq]
  have hz : cappedSize (List.replicate p.length 0) = cappedSize p := by
    rw [cappedSize, cappedSize, List.length_replicate]
  rw [take24_BuildPacket, take24_BuildPacket, take24_BuildPacket, hc, hz, hc]
  exact ⟨rfl, rfl⟩

/-- Witness of C15: two three-byte payloads with different contents. -/
theorem BuildPacket_header_independent_witness :
    (BuildPacket .Radio .Opus 2 48000 5 9 [1, 2, 3]).take 24
        = (BuildPacket .Radio .Opus 2 48000 5 9 [4, 5, 6]).take 24
    ∧ (BuildPacket .Radio .Opus 2 48000 5 9 [1, 2, 3]).take 24
        = (BuildPacket .Radio .Opus 2 48000 5 9 (List.replicate [1, 2, 3].length 0)).take 24 :=
  BuildPacket_header_independent .Radio .Opus 2 48000 5 9 [1, 2, 3] [4, 5, 6] (Or.inl rfl)

/-- C16: the write helpers are append-only.  For every buffer and value, after
`WriteU16LE`, `WriteU32LE` or `WriteU64LE` the buffer is longer by exactly 2, 4 or 8
bytes and every byte that was in the buffer is unchanged at its offset. -/
theorem WriteLE_append_only (out : List Nat) (value : Nat) :
    ((WriteU16LE out value).length = out.length + 2
      ∧ (WriteU16LE out value).take out.length = out
      ∧ ∀ i : Nat, i < out.length → (WriteU16LE out value)[i]? = out[i]?)
    ∧ ((WriteU32LE out value).length = out.length + 4
      ∧ (WriteU32LE out value).take out.length = out
      ∧ ∀ i : Nat, i < out.length → (WriteU32LE out value)[i]? = out[i]?)
    ∧ ((WriteU64LE out value).length = out.length + 8
      ∧ (WriteU64LE out value).take out.length = out
      ∧ ∀ i : Nat, i < out.length → (WriteU64LE out value)[i]? = out[i]?) := by
  rw [WriteU16LE_eq, WriteU32LE_eq, WriteU64LE_eq]
  refine ⟨⟨?_, List.take_left _ _, fun i hi => List.getElem?_append_left hi⟩,
    ⟨?_, List.take_left _ _, fun i hi => List.getElem?_append_left hi⟩,
    ⟨?_, List.take_left _ _, fun i hi => List.getElem?_append_left hi⟩⟩
  · rw [List.length_append]; rfl
  · rw [List.length_append]; rfl
  · rw [List.length_append]; rfl

end qd
